import Mathlib

/-!
Verification of the optimistic-mutation / realtime cache-sync layer of the
SolidJS + PocketBase + TanStack Query template (src/lib/queries.ts), and of
the login redirect handling (src/routes/_auth/login.tsx).

The TanStack Query cache is embedded as an association list of query keys to
entries.  List queries are keyed by (collection, params) and hold either no
data yet, a value without an items field, or a page (items, totalItems);
detail queries are keyed by (collection, record id) and hold one record.
Each entry carries a staleness flag; invalidateQueries sets it, removeQueries
deletes the entry.  Timestamps (Date.now, new Date().toISOString) are made
explicit parameters of the pure cache transformations.
-/

/-- A field value of a PocketBase record. -/
inductive Value where
  | str (s : String)
  | bool (b : Bool)
  | int (n : Int)
  | null
deriving DecidableEq, Repr

/-- Embeds the RecordWithId type of queries.ts: an id plus arbitrary fields.
The backend-managed created and updated timestamps are kept separate from the
collection-specific fields. -/
structure RecordWithId where
  id : String
  created : Nat
  updated : Nat
  fields : List (String × Value)
deriving DecidableEq, Repr

/-- A cached value of a list query: either no data fetched yet (undefined in
JS), a cached value lacking an items field (the code tests old.items before
touching a value), or a fetched page with its items and total count. -/
inductive CacheVal where
  | undef
  | noItemsField (payload : Int)
  | listData (items : List RecordWithId) (totalItems : Int)
deriving DecidableEq, Repr

/-- Query key of a list query: queryKey = [collection, "list", options].
Options are opaque to the layer under verification and abstracted to a Nat. -/
structure ListKey where
  coll : String
  params : Nat
deriving DecidableEq, Repr

/-- A list-query cache entry: data plus staleness flag. -/
structure ListEntry where
  val : CacheVal
  stale : Bool
deriving DecidableEq, Repr

/-- Query key of a detail query: queryKey = [collection, "detail", id]. -/
structure DetailKey where
  coll : String
  id : String
deriving DecidableEq, Repr

/-- A detail-query cache entry. -/
structure DetailEntry where
  record : RecordWithId
  stale : Bool
deriving DecidableEq, Repr

/-- The query cache: all list-query entries and all detail-query entries.
Query keys are unique in the real cache (it is a map); theorems that need
uniqueness take it as a hypothesis. -/
structure Cache where
  lists : List (ListKey × ListEntry)
  details : List (DetailKey × DetailEntry)
deriving DecidableEq, Repr

/-- queryClient.setQueriesData({queryKey: [coll, "list"]}, f): apply the
updater to the data of every list query of the collection. -/
def setQueriesDataList (c : Cache) (coll : String) (f : CacheVal → CacheVal) : Cache :=
  { c with lists := c.lists.map fun p =>
      if p.1.coll = coll then (p.1, { p.2 with val := f p.2.val }) else p }

/-- queryClient.getQueriesData({queryKey: [coll, "list"]}): the list of
(queryKey, data) pairs of every list query of the collection. -/
def getQueriesDataList (c : Cache) (coll : String) : List (ListKey × CacheVal) :=
  (c.lists.filter fun p => p.1.coll = coll).map fun p => (p.1, p.2.val)

/-- queryClient.setQueryData(k, v) for a list query key. -/
def setListVal (c : Cache) (k : ListKey) (v : CacheVal) : Cache :=
  { c with lists := c.lists.map fun p =>
      if p.1 = k then (p.1, { p.2 with val := v }) else p }

/-- queryClient.getQueryData for a list query key. -/
def lookupListVal (c : Cache) (k : ListKey) : Option CacheVal :=
  (c.lists.find? fun p => p.1 = k).map fun p => p.2.val

/-- The staleness flag of a list query entry, if the entry exists. -/
def listStale (c : Cache) (k : ListKey) : Option Bool :=
  (c.lists.find? fun p => p.1 = k).map fun p => p.2.stale

/-- queryClient.getQueryData([coll, "detail", id]). -/
def lookupDetail (c : Cache) (coll id : String) : Option RecordWithId :=
  (c.details.find? fun p => p.1 = (⟨coll, id⟩ : DetailKey)).map fun p => p.2.record

/-- queryClient.setQueryData([coll, "detail", id], r): overwrite the entry if
present, create it otherwise. -/
def setDetail (c : Cache) (coll id : String) (r : RecordWithId) : Cache :=
  if c.details.any (fun p => p.1 = (⟨coll, id⟩ : DetailKey)) then
    { c with details := c.details.map fun p =>
        if p.1 = (⟨coll, id⟩ : DetailKey) then (p.1, { p.2 with record := r }) else p }
  else
    { c with details := c.details ++ [(⟨coll, id⟩, { record := r, stale := false })] }

/-- queryClient.removeQueries({queryKey: [coll, "detail", id]}): the entry is
evicted from the cache outright. -/
def removeDetail (c : Cache) (coll id : String) : Cache :=
  { c with details := c.details.filter fun p => ¬(p.1 = (⟨coll, id⟩ : DetailKey)) }

/-- queryClient.invalidateQueries({queryKey: [coll, "list"]}): mark every list
query of the collection stale; data is untouched. -/
def invalidateLists (c : Cache) (coll : String) : Cache :=
  { c with lists := c.lists.map fun p =>
      if p.1.coll = coll then (p.1, { p.2 with stale := true }) else p }

/-! ## Optimistic update utilities (queries.ts lines 314 to 436) -/

/-- The placeholder identifier of an optimistic record: temp-Date.now(). -/
def placeholderId (now : Nat) : String := "temp-" ++ toString now

/-- The temporary record synthesized by optimisticCreate: placeholder id,
supplied fields, current timestamp for created and updated. -/
def tempRecord (now : Nat) (newRecord : List (String × Value)) : RecordWithId :=
  { id := placeholderId now
    created := now
    updated := now
    fields := newRecord }

/-- The setQueriesData updater of optimisticCreate: if the old value has no
items it is returned unchanged, otherwise the temporary record is prepended
and totalItems incremented. -/
def createTransform (now : Nat) (newRecord : List (String × Value)) :
    CacheVal → CacheVal
  | .listData items total => .listData (tempRecord now newRecord :: items) (total + 1)
  | v => v

/-- optimisticCreate: cancel in-flight list queries (no cache effect),
snapshot every list query of the collection, prepend the temporary record to
every list entry, and return the snapshot as the mutation context. -/
def optimisticCreate (c : Cache) (coll : String) (now : Nat)
    (newRecord : List (String × Value)) : Cache × List (ListKey × CacheVal) :=
  (setQueriesDataList c coll (createTransform now newRecord),
   getQueriesDataList c coll)

/-- One JS object-spread step: set field k to v, overriding in place when the
key is present, appending otherwise. -/
def setField (fs : List (String × Value)) (k : String) (v : Value) :
    List (String × Value) :=
  if fs.any (fun p => p.1 = k) then
    fs.map fun p => if p.1 = k then (k, v) else p
  else fs ++ [(k, v)]

/-- The spread ...item, ...updates, updated: now of optimisticUpdate. -/
def applyUpdates (now : Nat) (updates : List (String × Value))
    (r : RecordWithId) : RecordWithId :=
  { r with
    fields := updates.foldl (fun fs kv => setField fs kv.1 kv.2) r.fields
    updated := now }

/-- The setQueriesData updater of optimisticUpdate: patch every item whose id
matches, leave the total count alone. -/
def updateTransform (id : String) (updates : List (String × Value)) (now : Nat) :
    CacheVal → CacheVal
  | .listData items total =>
      .listData (items.map fun r => if r.id = id then applyUpdates now updates r else r) total
  | v => v

/-- The mutation context captured by the optimistic operations.  The JS value
is duck-typed; rollbackOptimisticUpdate inspects the four fields below. -/
structure MutationCtx where
  previousData : Option (List (ListKey × CacheVal))
  previousListData : Option (List (ListKey × CacheVal))
  previousDetailData : Option RecordWithId
  id : Option String
deriving Repr

/-- optimisticUpdate: snapshot list queries and the detail entry, patch every
matching item in every list entry, and patch the detail entry only if it
already existed. -/
def optimisticUpdate (c : Cache) (coll id : String)
    (updates : List (String × Value)) (now : Nat) : Cache × MutationCtx :=
  let previousListData := getQueriesDataList c coll
  let previousDetailData := lookupDetail c coll id
  let c1 := setQueriesDataList c coll (updateTransform id updates now)
  let c2 := match previousDetailData with
    | some r => setDetail c1 coll id (applyUpdates now updates r)
    | none => c1
  (c2, { previousData := none
         previousListData := some previousListData
         previousDetailData := previousDetailData
         id := none })

/-- The setQueriesData updater of optimisticDelete: filter the id out of the
items and decrement totalItems with a floor of zero (Math.max(0, n - 1)). -/
def deleteTransform (id : String) : CacheVal → CacheVal
  | .listData items total =>
      .listData (items.filter fun r => ¬(r.id = id)) (max 0 (total - 1))
  | v => v

/-- optimisticDelete: snapshot list queries, remove the record from every list
entry, and evict the detail entry for the id. -/
def optimisticDelete (c : Cache) (coll id : String) :
    Cache × List (ListKey × CacheVal) :=
  let previousData := getQueriesDataList c coll
  let c1 := setQueriesDataList c coll (deleteTransform id)
  (removeDetail c1 coll id, previousData)

/-- rollbackOptimisticUpdate: write every snapshotted entry back (the create
and delete snapshot under previousData, the update snapshot under
previousListData), then restore the detail entry when both previousDetailData
and id are present. -/
def rollbackOptimisticUpdate (c : Cache) (coll : String) (ctx : MutationCtx) : Cache :=
  let c1 := match ctx.previousData with
    | some l => l.foldl (fun acc kv => setListVal acc kv.1 kv.2) c
    | none => c
  let c2 := match ctx.previousListData with
    | some l => l.foldl (fun acc kv => setListVal acc kv.1 kv.2) c1
    | none => c1
  match ctx.previousDetailData, ctx.id with
  | some r, some i => setDetail c2 coll i r
  | _, _ => c2

/-- The failure path of useCreateRecord: onMutate runs optimisticCreate, the
write fails, onError runs rollbackOptimisticUpdate with the returned context,
and the error is surfaced to the caller (the mutation settles as an error). -/
def useCreateRecordOnError (c : Cache) (coll : String) (now : Nat)
    (newRecord : List (String × Value)) (err : String) :
    Cache × Except String RecordWithId :=
  let step := optimisticCreate c coll now newRecord
  let rolledBack := rollbackOptimisticUpdate step.1 coll
    { previousData := some step.2
      previousListData := none
      previousDetailData := none
      id := none }
  (rolledBack, Except.error err)

/-! ## Realtime integration (queries.ts lines 617 to 662) -/

/-- The action of a PocketBase realtime event. -/
inductive RtAction where
  | create
  | update
  | delete
deriving DecidableEq, Repr

/-- A realtime event: action plus the affected record. -/
structure RealtimeEvent where
  action : RtAction
  record : RecordWithId
deriving DecidableEq, Repr

/-- The cache mutation performed by the useRealtimeCollection subscription
handler for one event: create invalidates list queries, update overwrites the
detail entry with the payload and invalidates list queries, delete removes the
detail entry and invalidates list queries. -/
def realtimeCollectionHandler (c : Cache) (coll : String) (event : RealtimeEvent) : Cache :=
  match event.action with
  | .create => invalidateLists c coll
  | .update => invalidateLists (setDetail c coll event.record.id event.record) coll
  | .delete => invalidateLists (removeDetail c coll event.record.id) coll

/-- One delivery of the useRealtimeCollection subscription callback: the
optional caller-supplied onEvent runs first; in JS an exception raised by it
propagates out of the handler, so the switch on the action is only reached
when onEvent returns normally. -/
def runCollectionSubscription (c : Cache) (coll : String)
    (onEvent : Option (RealtimeEvent → Except String Unit))
    (event : RealtimeEvent) : Cache × Except String Unit :=
  match onEvent with
  | none => (realtimeCollectionHandler c coll event, Except.ok ())
  | some cb =>
    match cb event with
    | Except.error e => (c, Except.error e)
    | Except.ok _ => (realtimeCollectionHandler c coll event, Except.ok ())

/-! ## Backend reads after a delete (pb.getOne via useRecord) -/

/-- Failure of a backend call. -/
inductive PbError where
  | notFound
  | failed (msg : String)
deriving DecidableEq, Repr

/-- pb.getOne: fetch one record from the backend by id; a missing record is a
NotFound failure. -/
def getOne (server : List RecordWithId) (id : String) : Except PbError RecordWithId :=
  match server.find? (fun r => r.id = id) with
  | some r => Except.ok r
  | none => Except.error PbError.notFound

/-- The backend state after pb.deleteRecord succeeds: the record is gone. -/
def deleteRecordServer (server : List RecordWithId) (id : String) : List RecordWithId :=
  server.filter fun r => ¬(r.id = id)

/-- A detail read through useRecord: a cached entry is served from the cache;
a missing entry triggers pb.getOne against the backend. -/
def detailRead (c : Cache) (server : List RecordWithId) (coll id : String) :
    Except PbError RecordWithId :=
  match lookupDetail c coll id with
  | some r => Except.ok r
  | none => getOne server id

/-! ## Route guard and login redirect (src/routes/_auth/login.tsx) -/

/-- Outcome of a beforeLoad guard. -/
inductive NavOutcome where
  | allowed
  | redirectToLogin (redirectParam : String)
deriving DecidableEq, Repr

/-- Modelled from the spec: the beforeLoad guard of the _authenticated layout
route is not among the provided source files (only the README excerpt and its
consumers are).  Per section 4.3 of the spec, a protected route with a false
authentication predicate redirects to the login path with the originally
requested path encoded in the redirect query parameter; otherwise navigation
is allowed. -/
def authenticatedBeforeLoad (isAuthenticated : Bool) (locationHref : String) : NavOutcome :=
  if isAuthenticated then NavOutcome.allowed
  else NavOutcome.redirectToLogin locationHref

/-- The navigation target computed by handleSubmit in login.tsx after a
successful login: search.redirect or else /dashboard.  The JS expression
treats both a missing parameter and the empty string as falsy. -/
def loginRedirectTarget (redirect : Option String) : String :=
  match redirect with
  | none => "/dashboard"
  | some s => if s = "" then "/dashboard" else s

/-- Following the words of the spec (section 6): a well-formed redirect value
is a path; the guard always encodes location.href, which begins with a slash.
This definition exists only to state the well-formedness side of claim C9 and
is deliberately taken from the spec, not from the code, which performs no
such check. -/
def specWellFormedRedirect (s : String) : Bool :=
  match s.data with
  | [] => false
  | c :: _ => c = '/'

/-- The identifiers appearing in one cached list entry, used to state the
uniqueness invariant. -/
def entryIds (c : Cache) (k : ListKey) : List String :=
  match lookupListVal c k with
  | some (CacheVal.listData items _) => items.map fun r => r.id
  | _ => []

/-- The (queryKey, data) view of all list entries of a cache. -/
def listVals (c : Cache) : List (ListKey × CacheVal) :=
  c.lists.map fun p => (p.1, p.2.val)

/-! ## Cache lemmas -/

theorem lists_setDetail (c : Cache) (coll id : String) (r : RecordWithId) :
    (setDetail c coll id r).lists = c.lists := by
  unfold setDetail
  split <;> rfl

theorem details_setQueriesDataList (c : Cache) (coll : String)
    (f : CacheVal → CacheVal) :
    (setQueriesDataList c coll f).details = c.details := rfl

theorem details_invalidateLists (c : Cache) (coll : String) :
    (invalidateLists c coll).details = c.details := rfl

theorem lists_removeDetail (c : Cache) (coll id : String) :
    (removeDetail c coll id).lists = c.lists := rfl

theorem lookupListVal_setQueriesDataList (c : Cache) (coll : String)
    (f : CacheVal → CacheVal) (k : ListKey) :
    lookupListVal (setQueriesDataList c coll f) k =
      if k.coll = coll then (lookupListVal c k).map f else lookupListVal c k := by
  obtain ⟨l, d⟩ := c
  simp only [lookupListVal, setQueriesDataList]
  induction l with
  | nil => simp
  | cons p rest ih =>
    by_cases hp : p.1 = k
    · by_cases hc : k.coll = coll
      · have hpc : p.1.coll = coll := by rw [hp]; exact hc
        simp [List.find?_cons, hp, hpc, hc]
      · have hpc : ¬ p.1.coll = coll := by rw [hp]; exact hc
        simp [List.find?_cons, hp, hpc, hc]
    · by_cases hpc : p.1.coll = coll
      · simp only [List.map_cons, hpc, if_pos]
        rw [List.find?_cons_of_neg, List.find?_cons_of_neg _ (by simpa using hp)]
        · exact ih
        · simpa using hp
      · simp only [List.map_cons, hpc, if_neg, ite_false]
        rw [List.find?_cons_of_neg _ (by simpa using hp),
            List.find?_cons_of_neg _ (by simpa using hp)]
        exact ih

theorem listStale_invalidateLists (c : Cache) (coll : String) (k : ListKey) :
    listStale (invalidateLists c coll) k =
      if k.coll = coll then (listStale c k).map (fun _ => true) else listStale c k := by
  obtain ⟨l, d⟩ := c
  simp only [listStale, invalidateLists]
  induction l with
  | nil => simp
  | cons p rest ih =>
    by_cases hp : p.1 = k
    · by_cases hc : k.coll = coll
      · have hpc : p.1.coll = coll := by rw [hp]; exact hc
        simp [List.find?_cons, hp, hpc, hc]
      · have hpc : ¬ p.1.coll = coll := by rw [hp]; exact hc
        simp [List.find?_cons, hp, hpc, hc]
    · by_cases hpc : p.1.coll = coll
      · simp only [List.map_cons, hpc, if_pos]
        rw [List.find?_cons_of_neg _ (by simpa using hp),
            List.find?_cons_of_neg _ (by simpa using hp)]
        exact ih
      · simp only [List.map_cons, hpc, if_neg, ite_false]
        rw [List.find?_cons_of_neg _ (by simpa using hp),
            List.find?_cons_of_neg _ (by simpa using hp)]
        exact ih

theorem lookupListVal_invalidateLists (c : Cache) (coll : String) (k : ListKey) :
    lookupListVal (invalidateLists c coll) k = lookupListVal c k := by
  obtain ⟨l, d⟩ := c
  simp only [lookupListVal, invalidateLists]
  induction l with
  | nil => simp
  | cons p rest ih =>
    by_cases hp : p.1 = k
    · by_cases hc : k.coll = coll
      · have hpc : p.1.coll = coll := by rw [hp]; exact hc
        simp [List.find?_cons, hp, hpc, hc]
      · have hpc : ¬ p.1.coll = coll := by rw [hp]; exact hc
        simp [List.find?_cons, hp, hpc, hc]
    · by_cases hpc : p.1.coll = coll
      · simp only [List.map_cons, hpc, if_pos]
        rw [List.find?_cons_of_neg _ (by simpa using hp),
            List.find?_cons_of_neg _ (by simpa using hp)]
        exact ih
      · simp only [List.map_cons, hpc, if_neg, ite_false]
        rw [List.find?_cons_of_neg _ (by simpa using hp),
            List.find?_cons_of_neg _ (by simpa using hp)]
        exact ih

theorem lookupDetail_setDetail_self (c : Cache) (coll id : String) (r : RecordWithId) :
    lookupDetail (setDetail c coll id r) coll id = some r := by
  obtain ⟨l, d⟩ := c
  simp only [lookupDetail, setDetail]
  by_cases h : d.any (fun p => p.1 = (⟨coll, id⟩ : DetailKey))
  · simp only [h, if_pos]
    induction d with
    | nil => simp at h
    | cons p rest ih =>
      by_cases hp : p.1 = (⟨coll, id⟩ : DetailKey)
      · simp [List.find?_cons, hp]
      · simp only [List.map_cons, hp, if_neg, ite_false]
        rw [List.find?_cons_of_neg _ (by simpa using hp)]
        have hrest : rest.any (fun p => p.1 = (⟨coll, id⟩ : DetailKey)) := by
          simpa [List.any_cons, hp] using h
        exact ih hrest
  · simp only [h, if_neg, Bool.not_eq_true]
    induction d with
    | nil => simp [List.find?_cons]
    | cons p rest ih =>
      have hp : ¬ p.1 = (⟨coll, id⟩ : DetailKey) := by
        intro hcontra
        exact h (by simp [List.any_cons, hcontra])
      have hrest : ¬ rest.any (fun p => p.1 = (⟨coll, id⟩ : DetailKey)) := by
        intro hcontra
        exact h (by simp [List.any_cons, hcontra])
      simp only [List.cons_append]
      rw [List.find?_cons_of_neg _ (by simpa using hp)]
      exact ih hrest

theorem lookupDetail_removeDetail_self (c : Cache) (coll id : String) :
    lookupDetail (removeDetail c coll id) coll id = none := by
  obtain ⟨l, d⟩ := c
  simp only [lookupDetail, removeDetail]
  induction d with
  | nil => rfl
  | cons p rest ih =>
    by_cases hp : p.1 = (⟨coll, id⟩ : DetailKey)
    · simp only [List.filter_cons]
      rw [if_neg (by simp [hp])]
      exact ih
    · simp only [List.filter_cons]
      rw [if_pos (by simp [hp]), List.find?_cons_of_neg _ (by simpa using hp)]
      exact ih

theorem lookupDetail_setQueriesDataList (c : Cache) (collA coll id : String)
    (f : CacheVal → CacheVal) :
    lookupDetail (setQueriesDataList c collA f) coll id = lookupDetail c coll id := rfl

theorem lookupListVal_setDetail (c : Cache) (coll id : String) (r : RecordWithId)
    (k : ListKey) :
    lookupListVal (setDetail c coll id r) k = lookupListVal c k := by
  simp only [lookupListVal, lists_setDetail]

theorem lookupListVal_removeDetail (c : Cache) (coll id : String) (k : ListKey) :
    lookupListVal (removeDetail c coll id) k = lookupListVal c k := rfl

theorem listStale_setDetail (c : Cache) (coll id : String) (r : RecordWithId)
    (k : ListKey) :
    listStale (setDetail c coll id r) k = listStale c k := by
  simp only [listStale, lists_setDetail]

theorem listStale_removeDetail (c : Cache) (coll id : String) (k : ListKey) :
    listStale (removeDetail c coll id) k = listStale c k := rfl

theorem lookupDetail_invalidateLists (c : Cache) (collA coll id : String) :
    lookupDetail (invalidateLists c collA) coll id = lookupDetail c coll id := rfl

/-- Whether a cached value carries an items field. -/
def hasItemsField : CacheVal → Bool
  | CacheVal.listData _ _ => true
  | _ => false

theorem transforms_fix_no_items (v : CacheVal) (hno : hasItemsField v = false)
    (now : Nat) (newRecord updates : List (String × Value)) (id : String) :
    createTransform now newRecord v = v ∧ updateTransform id updates now v = v
      ∧ deleteTransform id v = v := by
  cases v with
  | undef => exact ⟨rfl, rfl, rfl⟩
  | noItemsField t => exact ⟨rfl, rfl, rfl⟩
  | listData items total => simp [hasItemsField] at hno

theorem find?_deleteRecordServer (server : List RecordWithId) (id : String) :
    (deleteRecordServer server id).find? (fun r => r.id = id) = none := by
  unfold deleteRecordServer
  induction server with
  | nil => rfl
  | cons r rest ih =>
    by_cases hr : r.id = id
    · simp only [List.filter_cons]
      rw [if_neg (by simp [hr])]
      exact ih
    · simp only [List.filter_cons]
      rw [if_pos (by simp [hr]), List.find?_cons_of_neg _ (by simpa using hr)]
      exact ih

theorem getOne_deleteRecordServer (server : List RecordWithId) (id : String) :
    getOne (deleteRecordServer server id) id = Except.error PbError.notFound := by
  unfold getOne
  rw [find?_deleteRecordServer]

/-! ## Claim C3 -/

/-- Claim C3: the optimistic create step, performed before the network call,
synthesizes a temporary record carrying the placeholder identifier (temp-now,
not a server-assigned one), the supplied fields, and the current timestamp
for both created and updated, prepends it to the item sequence of every
cached list entry of the collection, and increments the total count of that
entry by exactly one. -/
theorem optimistic_create_prepends_placeholder (c : Cache) (coll : String)
    (now : Nat) (newRecord : List (String × Value)) (k : ListKey)
    (items : List RecordWithId) (total : Int)
    (hk : k.coll = coll)
    (hv : lookupListVal c k = some (CacheVal.listData items total)) :
    lookupListVal (optimisticCreate c coll now newRecord).1 k =
      some (CacheVal.listData
        ({ id := placeholderId now, created := now, updated := now,
           fields := newRecord } :: items) (total + 1)) := by
  simp [optimisticCreate, lookupListVal_setQueriesDataList, hk, hv,
    createTransform, tempRecord]

/-- The concrete scenario of claim C3: creating the Buy milk todo on a
previously fetched empty todo list makes an immediate list read show exactly
one item, with the supplied fields and the placeholder identifier. -/
def buyMilkFields : List (String × Value) :=
  [("title", Value.str "Buy milk"), ("completed", Value.bool false)]

def emptyTodoCache : Cache :=
  { lists := [(⟨"todos", 0⟩, { val := CacheVal.listData [] 0, stale := false })]
    details := [] }

theorem optimistic_create_prepends_placeholder_witness :
    lookupListVal (optimisticCreate emptyTodoCache "todos" 17 buyMilkFields).1
        ⟨"todos", 0⟩ =
      some (CacheVal.listData
        [{ id := "temp-17", created := 17, updated := 17, fields := buyMilkFields }] 1) := by
  have h := optimistic_create_prepends_placeholder emptyTodoCache "todos" 17
    buyMilkFields ⟨"todos", 0⟩ [] 0 rfl (by decide)
  exact h.trans (by decide)

/-! ## Claim C4 -/

/-- Claim C4: the optimistic delete step removes every record whose
identifier equals the given id from every cached list entry of the
collection, decrements the total count with a floor of zero (the count never
becomes negative), and evicts the detail entry outright, so a detail read
after a successful delete misses the cache and results in NotFound. -/
theorem optimistic_delete_cache_effects (c : Cache) (coll id : String)
    (server : List RecordWithId) (k : ListKey) (items : List RecordWithId)
    (total : Int)
    (hk : k.coll = coll)
    (hv : lookupListVal c k = some (CacheVal.listData items total)) :
    lookupListVal (optimisticDelete c coll id).1 k =
      some (CacheVal.listData (items.filter fun r => ¬(r.id = id)) (max 0 (total - 1)))
    ∧ (0 : Int) ≤ max 0 (total - 1)
    ∧ lookupDetail (optimisticDelete c coll id).1 coll id = none
    ∧ detailRead (optimisticDelete c coll id).1 (deleteRecordServer server id) coll id
        = Except.error PbError.notFound := by
  have h1 : lookupListVal (optimisticDelete c coll id).1 k =
      some (CacheVal.listData (items.filter fun r => ¬(r.id = id)) (max 0 (total - 1))) := by
    simp [optimisticDelete, lookupListVal_removeDetail,
      lookupListVal_setQueriesDataList, hk, hv, deleteTransform]
  have h3 : lookupDetail (optimisticDelete c coll id).1 coll id = none := by
    simp [optimisticDelete, lookupDetail_removeDetail_self]
  refine ⟨h1, le_max_left 0 (total - 1), h3, ?_⟩
  unfold detailRead
  rw [h3, getOne_deleteRecordServer]

def todoA : RecordWithId :=
  { id := "a1", created := 1, updated := 1, fields := [("title", Value.str "first")] }

def todoB : RecordWithId :=
  { id := "b2", created := 2, updated := 2, fields := [("title", Value.str "second")] }

def twoTodoCache : Cache :=
  { lists := [(⟨"todos", 0⟩, { val := CacheVal.listData [todoA, todoB] 2, stale := false })]
    details := [(⟨"todos", "a1"⟩, { record := todoA, stale := false })] }

theorem optimistic_delete_cache_effects_witness :
    lookupListVal (optimisticDelete twoTodoCache "todos" "a1").1 ⟨"todos", 0⟩ =
      some (CacheVal.listData [todoB] 1)
    ∧ detailRead (optimisticDelete twoTodoCache "todos" "a1").1
        (deleteRecordServer [todoA, todoB] "a1") "todos" "a1"
      = Except.error PbError.notFound := by
  have h := optimistic_delete_cache_effects twoTodoCache "todos" "a1" [todoA, todoB]
    ⟨"todos", 0⟩ [todoA, todoB] 2 rfl (by decide)
  exact ⟨h.1.trans (by decide), h.2.2.2⟩

/-! ## Claim C10 -/

/-- Claim C10: every optimistic cache transformation leaves a list-query
entry unchanged when its cached value is undefined or lacks an items field
(no optimistic record inserted, no count adjusted for a list query that has
not completed a fetch), and the optimistic update writes a detail entry only
if one already existed for that identifier. -/
theorem optimistic_ops_skip_unfetched_entries (c : Cache) (coll id : String)
    (now : Nat) (newRecord updates : List (String × Value)) (k : ListKey)
    (v : CacheVal)
    (hv : lookupListVal c k = some v) (hno : hasItemsField v = false) :
    lookupListVal (optimisticCreate c coll now newRecord).1 k = some v
    ∧ lookupListVal (optimisticUpdate c coll id updates now).1 k = some v
    ∧ lookupListVal (optimisticDelete c coll id).1 k = some v
    ∧ (lookupDetail c coll id = none →
        lookupDetail (optimisticUpdate c coll id updates now).1 coll id = none) := by
  have hfix := transforms_fix_no_items v hno now newRecord updates id
  refine ⟨?_, ?_, ?_, ?_⟩
  · rw [show (optimisticCreate c coll now newRecord).1
        = setQueriesDataList c coll (createTransform now newRecord) from rfl,
      lookupListVal_setQueriesDataList]
    by_cases hk : k.coll = coll <;> simp [hk, hv, hfix.1]
  · simp only [optimisticUpdate]
    cases hd : lookupDetail c coll id with
    | none =>
      rw [lookupListVal_setQueriesDataList]
      by_cases hk : k.coll = coll <;> simp [hk, hv, hfix.2.1]
    | some r =>
      rw [lookupListVal_setDetail, lookupListVal_setQueriesDataList]
      by_cases hk : k.coll = coll <;> simp [hk, hv, hfix.2.1]
  · rw [show (optimisticDelete c coll id).1
        = removeDetail (setQueriesDataList c coll (deleteTransform id)) coll id from rfl,
      lookupListVal_removeDetail, lookupListVal_setQueriesDataList]
    by_cases hk : k.coll = coll <;> simp [hk, hv, hfix.2.2]
  · intro hd
    simp only [optimisticUpdate, hd]
    exact hd

def unfetchedCache : Cache :=
  { lists := [(⟨"todos", 3⟩, { val := CacheVal.undef, stale := true })]
    details := [] }

theorem optimistic_ops_skip_unfetched_entries_witness :
    lookupListVal (optimisticCreate unfetchedCache "todos" 17 buyMilkFields).1
        ⟨"todos", 3⟩ = some CacheVal.undef
    ∧ lookupListVal (optimisticDelete unfetchedCache "todos" "a1").1
        ⟨"todos", 3⟩ = some CacheVal.undef
    ∧ lookupDetail (optimisticUpdate unfetchedCache "todos" "a1" buyMilkFields 18).1
        "todos" "a1" = none := by
  have h := optimistic_ops_skip_unfetched_entries unfetchedCache "todos" "a1" 17
    buyMilkFields buyMilkFields ⟨"todos", 3⟩ CacheVal.undef (by decide) rfl
  have h2 := optimistic_ops_skip_unfetched_entries unfetchedCache "todos" "a1" 18
    buyMilkFields buyMilkFields ⟨"todos", 3⟩ CacheVal.undef (by decide) rfl
  exact ⟨h.1, h.2.2.1, h2.2.2.2 (by decide)⟩

/-! ## Claim C2 -/

/-- Claim C2: for every realtime event handled by the collection-wide
subscription of useRealtimeCollection: a create event only marks the
collection list queries stale and writes no record into any cache entry; an
update event overwrites the detail entry keyed by the event record id with
the event payload and marks list queries stale; a delete event evicts the
detail entry (removed, not merely stale) and marks list queries stale.  k is
an arbitrary list key of the collection, k2 an arbitrary list key. -/
theorem realtime_event_cache_effects (c : Cache) (coll : String)
    (r : RecordWithId) (k k2 : ListKey) (hk : k.coll = coll) :
    (lookupListVal (realtimeCollectionHandler c coll ⟨RtAction.create, r⟩) k2
        = lookupListVal c k2
      ∧ (realtimeCollectionHandler c coll ⟨RtAction.create, r⟩).details = c.details
      ∧ listStale (realtimeCollectionHandler c coll ⟨RtAction.create, r⟩) k
          = (listStale c k).map (fun _ => true))
    ∧ (lookupDetail (realtimeCollectionHandler c coll ⟨RtAction.update, r⟩) coll r.id
          = some r
      ∧ lookupListVal (realtimeCollectionHandler c coll ⟨RtAction.update, r⟩) k2
          = lookupListVal c k2
      ∧ listStale (realtimeCollectionHandler c coll ⟨RtAction.update, r⟩) k
          = (listStale c k).map (fun _ => true))
    ∧ (lookupDetail (realtimeCollectionHandler c coll ⟨RtAction.delete, r⟩) coll r.id
          = none
      ∧ lookupListVal (realtimeCollectionHandler c coll ⟨RtAction.delete, r⟩) k2
          = lookupListVal c k2
      ∧ listStale (realtimeCollectionHandler c coll ⟨RtAction.delete, r⟩) k
          = (listStale c k).map (fun _ => true)) := by
  refine ⟨⟨?_, ?_, ?_⟩, ⟨?_, ?_, ?_⟩, ⟨?_, ?_, ?_⟩⟩
  · exact lookupListVal_invalidateLists c coll k2
  · rfl
  · rw [show realtimeCollectionHandler c coll ⟨RtAction.create, r⟩
        = invalidateLists c coll from rfl,
      listStale_invalidateLists, if_pos hk]
  · rw [show realtimeCollectionHandler c coll ⟨RtAction.update, r⟩
        = invalidateLists (setDetail c coll r.id r) coll from rfl,
      lookupDetail_invalidateLists, lookupDetail_setDetail_self]
  · rw [show realtimeCollectionHandler c coll ⟨RtAction.update, r⟩
        = invalidateLists (setDetail c coll r.id r) coll from rfl,
      lookupListVal_invalidateLists, lookupListVal_setDetail]
  · rw [show realtimeCollectionHandler c coll ⟨RtAction.update, r⟩
        = invalidateLists (setDetail c coll r.id r) coll from rfl,
      listStale_invalidateLists, if_pos hk, listStale_setDetail]
  · rw [show realtimeCollectionHandler c coll ⟨RtAction.delete, r⟩
        = invalidateLists (removeDetail c coll r.id) coll from rfl,
      lookupDetail_invalidateLists, lookupDetail_removeDetail_self]
  · rw [show realtimeCollectionHandler c coll ⟨RtAction.delete, r⟩
        = invalidateLists (removeDetail c coll r.id) coll from rfl,
      lookupListVal_invalidateLists, lookupListVal_removeDetail]
  · rw [show realtimeCollectionHandler c coll ⟨RtAction.delete, r⟩
        = invalidateLists (removeDetail c coll r.id) coll from rfl,
      listStale_invalidateLists, if_pos hk, listStale_removeDetail]

def rOld : RecordWithId :=
  { id := "r1", created := 1, updated := 1, fields := [("title", Value.str "old")] }

def rNew : RecordWithId :=
  { id := "r1", created := 1, updated := 2, fields := [("title", Value.str "new")] }

def realtimeCache : Cache :=
  { lists := [(⟨"todos", 0⟩, { val := CacheVal.listData [rOld] 1, stale := false })]
    details := [(⟨"todos", "r1"⟩, { record := rOld, stale := false })] }

theorem realtime_event_cache_effects_witness :
    lookupDetail (realtimeCollectionHandler realtimeCache "todos"
        ⟨RtAction.update, rNew⟩) "todos" "r1" = some rNew
    ∧ listStale (realtimeCollectionHandler realtimeCache "todos"
        ⟨RtAction.create, rNew⟩) ⟨"todos", 0⟩ = some true
    ∧ lookupDetail (realtimeCollectionHandler realtimeCache "todos"
        ⟨RtAction.delete, rNew⟩) "todos" "r1" = none := by
  have h := realtime_event_cache_effects realtimeCache "todos" rNew
    ⟨"todos", 0⟩ ⟨"todos", 0⟩ rfl
  exact ⟨h.2.1.1, h.1.2.2.trans (by decide), h.2.2.1⟩

/-! ## Claim C7 -/

def callbackCache : Cache :=
  { lists := []
    details := [(⟨"todos", "r1"⟩, { record := rOld, stale := false })] }

/-- Counterexample to claim C7: the subscription handler invokes the
caller-supplied callback without any guard, so a callback that raises an
error aborts the handler before the switch on the action: the update event
leaves the cache untouched, although the default handling would have changed
it.  The callback therefore can suppress the default cache mutation. -/
theorem throwing_callback_skips_cache_sync :
    (runCollectionSubscription callbackCache "todos"
        (some fun _ => Except.error "boom") ⟨RtAction.update, rNew⟩).1 = callbackCache
    ∧ ¬(realtimeCollectionHandler callbackCache "todos" ⟨RtAction.update, rNew⟩
        = callbackCache) :=
  ⟨rfl, by decide⟩

/-- Claim C7 amended: the caller-supplied callback is invoked with the event
before the default cache handling, and when it returns normally the default
per-action cache mutation is always performed, whatever value it returns; a
callback that raises an error, however, prevents the default handling (the
exception propagates out of the subscription handler). -/
theorem returning_callback_cannot_suppress_sync (c : Cache) (coll : String)
    (cb : RealtimeEvent → Except String Unit) (event : RealtimeEvent)
    (h : cb event = Except.ok ()) :
    runCollectionSubscription c coll (some cb) event
      = (realtimeCollectionHandler c coll event, Except.ok ()) := by
  simp [runCollectionSubscription, h]

theorem returning_callback_cannot_suppress_sync_witness :
    runCollectionSubscription callbackCache "todos" (some fun _ => Except.ok ())
        ⟨RtAction.update, rNew⟩
      = (realtimeCollectionHandler callbackCache "todos" ⟨RtAction.update, rNew⟩,
         Except.ok ()) :=
  returning_callback_cannot_suppress_sync callbackCache "todos"
    (fun _ => Except.ok ()) ⟨RtAction.update, rNew⟩ rfl

/-! ## Claim C8 -/

/-- Claim C8: navigating to a protected path while the authentication
predicate is false redirects to the login path with the path encoded in the
redirect parameter, and a successful login with that parameter present
navigates to exactly that path, not to the default destination.  Protected
paths are nonempty. -/
theorem protected_redirect_round_trip (path : String) (hne : ¬(path = "")) :
    authenticatedBeforeLoad false path = NavOutcome.redirectToLogin path
    ∧ loginRedirectTarget (some path) = path := by
  refine ⟨rfl, ?_⟩
  simp [loginRedirectTarget, hne]

theorem protected_redirect_round_trip_witness :
    authenticatedBeforeLoad false "/patients" = NavOutcome.redirectToLogin "/patients"
    ∧ loginRedirectTarget (some "/patients") = "/patients" :=
  protected_redirect_round_trip "/patients" (by decide)

/-! ## Claim C9 -/

/-- Counterexample to claim C9: handleSubmit performs no well-formedness
check on the redirect parameter; a present malformed value (an absolute URL,
not a path) is navigated to as-is instead of the default destination. -/
theorem malformed_redirect_not_validated :
    specWellFormedRedirect "https://evil.example" = false
    ∧ loginRedirectTarget (some "https://evil.example") = "https://evil.example"
    ∧ ¬(loginRedirectTarget (some "https://evil.example") = "/dashboard") := by
  refine ⟨by decide, by decide, by decide⟩

/-- Claim C9 amended: navigation proceeds to the redirect parameter whenever
it is present and nonempty, with no well-formedness validation; only an
absent parameter or the empty string falls back to the default /dashboard
destination. -/
theorem redirect_fallback_only_when_absent_or_empty (s : String) (h : ¬(s = "")) :
    loginRedirectTarget (some s) = s
    ∧ loginRedirectTarget none = "/dashboard"
    ∧ loginRedirectTarget (some "") = "/dashboard" := by
  refine ⟨?_, rfl, by decide⟩
  simp [loginRedirectTarget, h]

theorem redirect_fallback_only_when_absent_or_empty_witness :
    loginRedirectTarget (some "/todos/new") = "/todos/new"
    ∧ loginRedirectTarget none = "/dashboard"
    ∧ loginRedirectTarget (some "") = "/dashboard" :=
  redirect_fallback_only_when_absent_or_empty "/todos/new" (by decide)

/-! ## Rollback lemmas for claim C1 -/

theorem foldl_setListVal_lists (s : List (ListKey × CacheVal)) (c : Cache) :
    (s.foldl (fun acc kv => setListVal acc kv.1 kv.2) c).lists
      = s.foldl (fun l kv => l.map fun p =>
          if p.1 = kv.1 then (p.1, { p.2 with val := kv.2 }) else p) c.lists
    ∧ (s.foldl (fun acc kv => setListVal acc kv.1 kv.2) c).details = c.details := by
  induction s generalizing c with
  | nil => exact ⟨rfl, rfl⟩
  | cons kv rest ih =>
    simp only [List.foldl_cons]
    refine ⟨?_, ?_⟩
    · rw [(ih (setListVal c kv.1 kv.2)).1]; rfl
    · rw [(ih (setListVal c kv.1 kv.2)).2]; rfl

theorem foldl_map_restore (s : List (ListKey × CacheVal))
    (l : List (ListKey × ListEntry)) :
    s.foldl (fun l kv => l.map fun p =>
        if p.1 = kv.1 then (p.1, { p.2 with val := kv.2 }) else p) l
      = l.map fun p => s.foldl (fun q kv =>
          if q.1 = kv.1 then (q.1, { q.2 with val := kv.2 }) else q) p := by
  induction s generalizing l with
  | nil => simp
  | cons kv rest ih =>
    simp only [List.foldl_cons]
    rw [ih, List.map_map]
    rfl

theorem foldl_restore_notmem (s : List (ListKey × CacheVal))
    (p : ListKey × ListEntry) (h : ∀ kv ∈ s, ¬(p.1 = kv.1)) :
    s.foldl (fun q kv =>
        if q.1 = kv.1 then (q.1, { q.2 with val := kv.2 }) else q) p = p := by
  induction s with
  | nil => rfl
  | cons kv rest ih =>
    simp only [List.foldl_cons]
    rw [if_neg (h kv (List.mem_cons_self _ _))]
    exact ih fun kv2 h2 => h kv2 (List.mem_cons_of_mem _ h2)

theorem foldl_restore_mem (s : List (ListKey × CacheVal))
    (p : ListKey × ListEntry) (v : CacheVal)
    (hnd : (s.map Prod.fst).Nodup) (hmem : (p.1, v) ∈ s) :
    s.foldl (fun q kv =>
        if q.1 = kv.1 then (q.1, { q.2 with val := kv.2 }) else q) p
      = (p.1, { p.2 with val := v }) := by
  induction s with
  | nil => exact absurd hmem (List.not_mem_nil _)
  | cons kv rest ih =>
    rw [List.map_cons, List.nodup_cons] at hnd
    rcases List.mem_cons.mp hmem with heq | hrest
    · simp only [List.foldl_cons]
      rw [← heq, if_pos rfl]
      apply foldl_restore_notmem
      intro kv2 h2 hcontra
      apply hnd.1
      have hmem2 : kv2.1 ∈ rest.map Prod.fst := List.mem_map_of_mem Prod.fst h2
      have hk1 : kv.1 = p.1 := by rw [← heq]
      have hp1 : p.1 = kv2.1 := hcontra
      rw [hk1, hp1]
      exact hmem2
    · have hne : ¬(p.1 = kv.1) := by
        intro hcontra
        apply hnd.1
        have hmem2 : p.1 ∈ rest.map Prod.fst := List.mem_map_of_mem Prod.fst hrest
        rw [← hcontra]
        exact hmem2
      simp only [List.foldl_cons]
      rw [if_neg hne]
      exact ih hnd.2 hrest

theorem mem_getQueriesDataList_coll (c : Cache) (coll : String)
    (kv : ListKey × CacheVal) (h : kv ∈ getQueriesDataList c coll) :
    kv.1.coll = coll := by
  unfold getQueriesDataList at h
  rcases List.mem_map.mp h with ⟨q, hq, rfl⟩
  have := List.of_mem_filter hq
  simpa using this

theorem mem_getQueriesDataList_of_mem (c : Cache) (coll : String)
    (p : ListKey × ListEntry) (hp : p ∈ c.lists) (hpc : p.1.coll = coll) :
    (p.1, p.2.val) ∈ getQueriesDataList c coll := by
  unfold getQueriesDataList
  exact List.mem_map_of_mem _ (List.mem_filter.mpr ⟨hp, by simpa using hpc⟩)

theorem nodup_getQueriesDataList_keys (c : Cache) (coll : String)
    (hnd : (c.lists.map Prod.fst).Nodup) :
    ((getQueriesDataList c coll).map Prod.fst).Nodup := by
  unfold getQueriesDataList
  rw [List.map_map]
  have hsub : List.Sublist
      ((c.lists.filter fun p => p.1.coll = coll).map Prod.fst)
      (c.lists.map Prod.fst) :=
    List.Sublist.map Prod.fst (List.filter_sublist c.lists)
  exact hnd.sublist hsub

/-! ## Claim C1 -/

theorem rollback_after_optimisticCreate (c : Cache) (coll : String) (now : Nat)
    (newRecord : List (String × Value))
    (hnd : (c.lists.map Prod.fst).Nodup) :
    (getQueriesDataList c coll).foldl (fun acc kv => setListVal acc kv.1 kv.2)
      (setQueriesDataList c coll (createTransform now newRecord)) = c := by
  have h1 := foldl_setListVal_lists (getQueriesDataList c coll)
    (setQueriesDataList c coll (createTransform now newRecord))
  have hpt : ∀ p ∈ c.lists,
      (getQueriesDataList c coll).foldl (fun q kv =>
          if q.1 = kv.1 then (q.1, { q.2 with val := kv.2 }) else q)
        (if p.1.coll = coll
          then (p.1, { p.2 with val := createTransform now newRecord p.2.val })
          else p) = p := by
    intro p hp
    rcases p with ⟨pk, pv, ps⟩
    by_cases hpc : pk.coll = coll
    · rw [if_pos hpc]
      have hmem : ((pk, (⟨pv, ps⟩ : ListEntry)).1,
          (pk, (⟨pv, ps⟩ : ListEntry)).2.val) ∈ getQueriesDataList c coll :=
        mem_getQueriesDataList_of_mem c coll _ hp hpc
      exact foldl_restore_mem (getQueriesDataList c coll)
        (pk, { val := createTransform now newRecord pv, stale := ps }) pv
        (nodup_getQueriesDataList_keys c coll hnd) hmem
    · rw [if_neg hpc]
      apply foldl_restore_notmem
      intro kv hkv hcontra
      apply hpc
      have hcoll := mem_getQueriesDataList_coll c coll kv hkv
      have hk : pk = kv.1 := hcontra
      rw [hk]
      exact hcoll
  have hl : ((getQueriesDataList c coll).foldl (fun acc kv => setListVal acc kv.1 kv.2)
      (setQueriesDataList c coll (createTransform now newRecord))).lists = c.lists := by
    rw [h1.1]
    rw [show (setQueriesDataList c coll (createTransform now newRecord)).lists
        = c.lists.map (fun p => if p.1.coll = coll
            then (p.1, { p.2 with val := createTransform now newRecord p.2.val })
            else p) from rfl]
    rw [foldl_map_restore, List.map_map]
    have hcongr : c.lists.map ((fun p => (getQueriesDataList c coll).foldl
        (fun q kv => if q.1 = kv.1 then (q.1, { q.2 with val := kv.2 }) else q) p)
        ∘ (fun p => if p.1.coll = coll
            then (p.1, { p.2 with val := createTransform now newRecord p.2.val })
            else p)) = c.lists.map id := by
      apply List.map_congr_left
      intro p hp
      exact hpt p hp
    rw [hcongr, List.map_id]
  have hd : ((getQueriesDataList c coll).foldl (fun acc kv => setListVal acc kv.1 kv.2)
      (setQueriesDataList c coll (createTransform now newRecord))).details = c.details := by
    rw [h1.2]
    rfl
  calc (getQueriesDataList c coll).foldl (fun acc kv => setListVal acc kv.1 kv.2)
        (setQueriesDataList c coll (createTransform now newRecord))
      = (⟨((getQueriesDataList c coll).foldl (fun acc kv => setListVal acc kv.1 kv.2)
            (setQueriesDataList c coll (createTransform now newRecord))).lists,
          ((getQueriesDataList c coll).foldl (fun acc kv => setListVal acc kv.1 kv.2)
            (setQueriesDataList c coll (createTransform now newRecord))).details⟩ : Cache) := rfl
    _ = (⟨c.lists, c.details⟩ : Cache) := by rw [hl, hd]
    _ = c := rfl

/-- Claim C1: when an optimistic create is issued and the underlying write
fails, after the error handler runs every list-query cache entry of the
collection is restored verbatim to its value from immediately before the
mutation started (the placeholder record is gone; sequences and counts equal
the pre-call state; in this model the whole cache equals its pre-call state),
and the error is still surfaced to the caller. -/
theorem create_failure_restores_cache (c : Cache) (coll : String) (now : Nat)
    (newRecord : List (String × Value)) (err : String)
    (hnd : (c.lists.map Prod.fst).Nodup) :
    (useCreateRecordOnError c coll now newRecord err).1 = c
    ∧ (useCreateRecordOnError c coll now newRecord err).2 = Except.error err := by
  refine ⟨?_, rfl⟩
  show (getQueriesDataList c coll).foldl (fun acc kv => setListVal acc kv.1 kv.2)
      (setQueriesDataList c coll (createTransform now newRecord)) = c
  exact rollback_after_optimisticCreate c coll now newRecord hnd

theorem create_failure_restores_cache_witness :
    (useCreateRecordOnError twoTodoCache "todos" 99 buyMilkFields "network down").1
      = twoTodoCache
    ∧ (useCreateRecordOnError twoTodoCache "todos" 99 buyMilkFields "network down").2
      = Except.error "network down" :=
  create_failure_restores_cache twoTodoCache "todos" 99 buyMilkFields
    "network down" (by decide)

/-! ## Claim C5 -/

/-- Erase the modification timestamp of a record, for comparisons that
exclude it. -/
def eraseUpdated (r : RecordWithId) : RecordWithId := { r with updated := 0 }

/-- Erase the modification timestamps of every record of a cached value. -/
def eraseVal : CacheVal → CacheVal
  | CacheVal.listData items total => CacheVal.listData (items.map eraseUpdated) total
  | v => v

theorem any_key_setField (fs : List (String × Value)) (k : String) (v : Value) :
    (setField fs k v).any (fun p => p.1 = k) = true := by
  unfold setField
  by_cases h : fs.any (fun p => p.1 = k)
  · rw [if_pos h]
    rcases List.any_eq_true.mp h with ⟨p, hp, hpk⟩
    apply List.any_eq_true.mpr
    refine ⟨(k, v), List.mem_map.mpr ⟨p, hp, ?_⟩, by simp⟩
    rw [if_pos (by simpa using hpk)]
  · rw [if_neg h]
    apply List.any_eq_true.mpr
    exact ⟨(k, v), List.mem_append_right _ (List.mem_singleton.mpr rfl), by simp⟩

theorem mem_setField_key (fs : List (String × Value)) (k : String) (v : Value)
    (p : String × Value) (hp : p ∈ setField fs k v) (hk : p.1 = k) : p = (k, v) := by
  unfold setField at hp
  by_cases h : fs.any (fun q => q.1 = k)
  · rw [if_pos h] at hp
    rcases List.mem_map.mp hp with ⟨q, hq, hqe⟩
    by_cases hqk : q.1 = k
    · rw [if_pos hqk] at hqe
      exact hqe.symm
    · rw [if_neg hqk] at hqe
      rw [← hqe] at hk
      exact absurd hk hqk
  · rw [if_neg h] at hp
    rcases List.mem_append.mp hp with h1 | h2
    · exact absurd (List.any_eq_true.mpr ⟨p, h1, by simpa using hk⟩) h
    · simpa using h2

theorem setField_idem (fs : List (String × Value)) (k : String) (v : Value) :
    setField (setField fs k v) k v = setField fs k v := by
  conv_lhs => rw [setField]
  rw [if_pos (any_key_setField fs k v)]
  have hcongr : (setField fs k v).map (fun p => if p.1 = k then (k, v) else p)
      = (setField fs k v).map id := by
    apply List.map_congr_left
    intro p hp
    by_cases hpk : p.1 = k
    · rw [if_pos hpk, id_eq]
      exact (mem_setField_key fs k v p hp hpk).symm
    · rw [if_neg hpk, id_eq]
  rw [hcongr, List.map_id]

theorem applyUpdates_id_field (now : Nat) (updates : List (String × Value))
    (r : RecordWithId) : (applyUpdates now updates r).id = r.id := rfl

theorem applyUpdates_single_idem (r : RecordWithId) (x : String) (v : Value)
    (now1 now2 : Nat) :
    eraseUpdated (applyUpdates now2 [(x, v)] (applyUpdates now1 [(x, v)] r))
      = eraseUpdated (applyUpdates now1 [(x, v)] r) := by
  unfold applyUpdates eraseUpdated
  simp [setField_idem]

theorem eraseVal_updateTransform_idem (id x : String) (v : Value)
    (now1 now2 : Nat) (w : CacheVal) :
    eraseVal (updateTransform id [(x, v)] now2 (updateTransform id [(x, v)] now1 w))
      = eraseVal (updateTransform id [(x, v)] now1 w) := by
  cases w with
  | undef => rfl
  | noItemsField t => rfl
  | listData items total =>
    simp only [updateTransform, eraseVal, List.map_map]
    congr 1
    apply List.map_congr_left
    intro r hr
    simp only [Function.comp]
    by_cases hrid : r.id = id
    · rw [if_pos hrid, if_pos (by rw [applyUpdates_id_field]; exact hrid)]
      exact applyUpdates_single_idem r x v now1 now2
    · rw [if_neg hrid, if_neg hrid]

theorem lookupListVal_optimisticUpdate (c : Cache) (coll id : String)
    (updates : List (String × Value)) (now : Nat) (k : ListKey) :
    lookupListVal (optimisticUpdate c coll id updates now).1 k =
      if k.coll = coll then (lookupListVal c k).map (updateTransform id updates now)
      else lookupListVal c k := by
  simp only [optimisticUpdate]
  cases hd : lookupDetail c coll id with
  | none => exact lookupListVal_setQueriesDataList c coll _ k
  | some r =>
    rw [lookupListVal_setDetail]
    exact lookupListVal_setQueriesDataList c coll _ k

theorem lookupDetail_optimisticUpdate (c : Cache) (coll id : String)
    (updates : List (String × Value)) (now : Nat) :
    lookupDetail (optimisticUpdate c coll id updates now).1 coll id =
      (lookupDetail c coll id).map (applyUpdates now updates) := by
  simp only [optimisticUpdate]
  cases hd : lookupDetail c coll id with
  | none => exact hd
  | some r =>
    exact lookupDetail_setDetail_self
      (setQueriesDataList c coll (updateTransform id updates now)) coll id
      (applyUpdates now updates r)

/-- Claim C5: applying the optimistic update cache transformation twice in
succession with the same single field and value yields the same cache entry
for the identifier, in list entries and in the detail entry, as applying it
once, when the modification timestamp is excluded from the comparison. -/
theorem optimistic_update_idempotent_mod_timestamp (c : Cache) (coll id x : String)
    (v : Value) (now1 now2 : Nat) (k : ListKey) :
    (lookupListVal (optimisticUpdate (optimisticUpdate c coll id [(x, v)] now1).1
        coll id [(x, v)] now2).1 k).map eraseVal
      = (lookupListVal (optimisticUpdate c coll id [(x, v)] now1).1 k).map eraseVal
    ∧ (lookupDetail (optimisticUpdate (optimisticUpdate c coll id [(x, v)] now1).1
        coll id [(x, v)] now2).1 coll id).map eraseUpdated
      = (lookupDetail (optimisticUpdate c coll id [(x, v)] now1).1 coll id).map eraseUpdated := by
  constructor
  · rw [lookupListVal_optimisticUpdate, lookupListVal_optimisticUpdate]
    by_cases hk : k.coll = coll
    · rw [if_pos hk, if_pos hk]
      cases hv : lookupListVal c k with
      | none => rfl
      | some w => exact congrArg some (eraseVal_updateTransform_idem id x v now1 now2 w)
    · rw [if_neg hk, if_neg hk]
  · rw [lookupDetail_optimisticUpdate, lookupDetail_optimisticUpdate]
    cases hv : lookupDetail c coll id with
    | none => rfl
    | some r => exact congrArg some (applyUpdates_single_idem r x v now1 now2)

/-! ## Claim C6 -/

/-- Counterexample to claim C6: the placeholder identifier is derived from
the millisecond clock (temp-Date.now()), so two optimistic creates issued on
the same collection within the same millisecond synthesize the same
identifier temp-5, leaving one cached list entry holding two records with
the same identifier before the server responds. -/
theorem same_millisecond_creates_duplicate_id :
    entryIds (optimisticCreate (optimisticCreate emptyTodoCache "todos" 5 []).1
        "todos" 5 []).1 ⟨"todos", 0⟩ = ["temp-5", "temp-5"]
    ∧ ¬(["temp-5", "temp-5"] : List String).Nodup :=
  ⟨by decide, by decide⟩

/-- Claim C6 amended: identifiers stay unique within a cached list entry
under optimistic creates only when the creates carry distinct placeholder
identifiers (they are issued in distinct clock milliseconds) and neither
placeholder collides with an already cached identifier; two optimistic
creates within the same millisecond share one placeholder identifier and do
leave two cache entries with the same identifier until the refetch replaces
them. -/
theorem distinct_placeholder_creates_unique_ids (c : Cache) (coll : String)
    (now1 now2 : Nat) (f1 f2 : List (String × Value)) (k : ListKey)
    (items : List RecordWithId) (total : Int)
    (hk : k.coll = coll)
    (hv : lookupListVal c k = some (CacheVal.listData items total))
    (hnd : (items.map fun r => r.id).Nodup)
    (hne : ¬(placeholderId now1 = placeholderId now2))
    (h1 : placeholderId now1 ∉ items.map fun r => r.id)
    (h2 : placeholderId now2 ∉ items.map fun r => r.id) :
    (entryIds (optimisticCreate (optimisticCreate c coll now1 f1).1
        coll now2 f2).1 k).Nodup := by
  have hA := optimistic_create_prepends_placeholder c coll now1 f1 k items total hk hv
  have hB := optimistic_create_prepends_placeholder (optimisticCreate c coll now1 f1).1
    coll now2 f2 k (tempRecord now1 f1 :: items) (total + 1) hk hA
  unfold entryIds
  rw [hB]
  simp only [List.map_cons]
  rw [List.nodup_cons, List.nodup_cons]
  refine ⟨?_, ?_, hnd⟩
  · intro hmem
    rcases List.mem_cons.mp hmem with heq | hmem2
    · exact hne heq.symm
    · exact h2 hmem2
  · exact h1

theorem distinct_placeholder_creates_unique_ids_witness :
    (entryIds (optimisticCreate (optimisticCreate emptyTodoCache "todos" 1 []).1
        "todos" 2 []).1 ⟨"todos", 0⟩).Nodup :=
  distinct_placeholder_creates_unique_ids emptyTodoCache "todos" 1 2 [] []
    ⟨"todos", 0⟩ [] 0 rfl (by decide) (by decide) (by decide) (by decide)
    (by decide)
